import Mathlib

/-!
Shallow embedding of the analytics pipeline of `dashboard.py`.

The script loads two tables (clients, finance), normalizes them, and computes
derived tables at module scope: yearly activity, renewal distribution,
department market share (all contracts / first contracts), churn & retention,
profit margins, and a per-client profit attribution with a top-15 ranking per
department.  Tables are modelled as Lean lists of records; pandas float
columns are modelled as exact rationals (an `Option` when a cell can be the
pandas missing value NaN, and a dedicated `PVal` type where IEEE infinities
can arise).  `round(x, k)` is modelled as rounding the scaled rational to the
nearest integer; Python's tie-breaking (half to even) differs from
`round`'s half-up only at exact ties, which do not arise in any of the
concrete computations below.
-/

namespace Dashboard

/-- A normalized client row (`clients` after the cleaning block, lines 20-30):
non-null `Company`, `Department`, integer `Year` derived from the renewal
date, and the zero-based `Renewal_No`. -/
structure ClientRow where
  company : String
  department : String
  renewalNo : Nat
  year : Int
deriving DecidableEq, Repr

/-- A finance row after `finance["Year"].astype(int)` (line 36). -/
structure FinanceRow where
  department : String
  year : Int
  totalSales : ℚ
  totalProfit : ℚ
deriving DecidableEq, Repr

/-- `round(q, 1)`: round to one decimal place. -/
def round1 (q : ℚ) : ℚ := (round (10 * q) : ℚ) / 10

/-- `round(q, 2)`: round to two decimal places. -/
def round2 (q : ℚ) : ℚ := (round (100 * q) : ℚ) / 100

/-- A pandas float cell: a finite rational, an IEEE infinity, or NaN.
pandas represents a missing float as NaN, and float division by zero
produces an infinity (or NaN for `0/0`) without raising. -/
inductive PVal where
  | fin : ℚ → PVal
  | posInf : PVal
  | negInf : PVal
  | nan : PVal
deriving DecidableEq, Repr

/-- pandas `isna` on a float cell: only NaN counts as missing/null;
infinities are ordinary (non-null) float values. -/
def PVal.isNull : PVal → Bool
  | .nan => true
  | _ => false

/-- pandas division of two finite float cells: division by zero yields
`±inf` (or NaN when the numerator is also zero), never an exception. -/
def pdiv (a b : ℚ) : PVal :=
  if b = 0 then
    if 0 < a then .posInf else if a < 0 then .negInf else .nan
  else .fin (a / b)

/-- Multiplication of a pandas float cell by the positive constant 100. -/
def pmul100 : PVal → PVal
  | .fin a => .fin (a * 100)
  | .posInf => .posInf
  | .negInf => .negInf
  | .nan => .nan

/-- numpy `round(·, 1)` on a float cell: infinities and NaN pass through. -/
def pround1 : PVal → PVal
  | .fin a => .fin (round1 a)
  | v => v

/-- Line 112, one cell: `round((Total Profit / Total Sales) * 100, 1)`. -/
def profitMarginCell (r : FinanceRow) : PVal :=
  pround1 (pmul100 (pdiv r.totalProfit r.totalSales))

/-- Line 112, the whole `Profit Margin_%` column. -/
def profitMarginCol (fin : List FinanceRow) : List PVal :=
  fin.map profitMarginCell

/-! ### Churn & retention (section 5, lines 83-95) -/

/-- `set(clients[clients["Year"] == y]["Company"])`: the distinct companies
active in year `y` (as a duplicate-free list). -/
def companiesIn (cs : List ClientRow) (y : Int) : List String :=
  ((cs.filter (fun r => r.year = y)).map (·.company)).dedup

/-- `sorted(clients["Year"].unique())` (line 83). -/
def sortedYears (cs : List ClientRow) : List Int :=
  List.insertionSort (· ≤ ·) ((cs.map (·.year)).dedup)

/-- One row of the churn table; `none` models the `np.nan` branch. -/
structure ChurnRow where
  year : Int
  churnPct : Option ℚ
  retentionPct : Option ℚ
deriving DecidableEq, Repr

/-- The loop body of lines 85-93 for the consecutive pair `(y, ynext)`. -/
def churnRowFor (cs : List ClientRow) (y ynext : Int) : ChurnRow :=
  let current := companiesIn cs y
  let nxt := companiesIn cs ynext
  if 0 < current.length then
    let churn := round1 (100 * ((current.filter (fun c => ¬ c ∈ nxt)).length : ℚ)
      / (current.length : ℚ))
    ⟨y, some churn, some (100 - churn)⟩
  else ⟨y, none, none⟩

/-- `churn_df` (lines 84-95): one row per consecutive pair of sorted years. -/
def churnTable (cs : List ClientRow) : List ChurnRow :=
  let ys := sortedYears cs
  (ys.zip ys.tail).map (fun p => churnRowFor cs p.1 p.2)

/-! ### Renewal distribution (section 2, lines 51-52) -/

/-- `clients["Company"].unique()` order-insensitive: distinct companies. -/
def distinctCompanies (cs : List ClientRow) : List String :=
  (cs.map (·.company)).dedup

/-- `clients.groupby("Company")["Renewal_No"].max()` for one company. -/
def maxRenewalOf (cs : List ClientRow) (c : String) : Nat :=
  ((cs.filter (fun r => r.company = c)).map (·.renewalNo)).foldr max 0

/-- The per-company maxima, one entry per distinct company. -/
def renewalMaxima (cs : List ClientRow) : List Nat :=
  (distinctCompanies cs).map (maxRenewalOf cs)

/-- `renewal_counts` (lines 51-52): `value_counts().sort_index()` of the
per-company maxima — `(Renewal_Times, Number_of_Clients)` pairs ordered
ascending by the renewal count. -/
def renewalCounts (cs : List ClientRow) : List (Nat × Nat) :=
  (List.insertionSort (· ≤ ·) (renewalMaxima cs).dedup).map
    (fun k => (k, ((renewalMaxima cs).filter (fun m => m = k)).length))

/-! ### Market share (sections 3-4, lines 62-74) -/

/-- Python's string `<`: strict lexicographic comparison by code point,
spelled on the underlying character list so that proofs can evaluate it. -/
def strLT (s t : String) : Prop := List.Lex (· < ·) s.data t.data

instance : DecidableRel strLT := fun s t =>
  List.Lex.decidableRel (· < ·) s.data t.data

/-- Python's string `≤` (the reflexive closure of `strLT`). -/
def strLE (s t : String) : Prop := strLT s t ∨ s = t

instance : DecidableRel strLE := fun s t => by
  unfold strLE; infer_instance

/-- The distinct departments of a client table, sorted ascending
(pandas `groupby` sorts group keys). -/
def deptsOf (cs : List ClientRow) : List String :=
  List.insertionSort strLE ((cs.map (·.department)).dedup)

structure ShareRow where
  department : String
  totalContracts : Nat
  sharePct : ℚ
deriving DecidableEq, Repr

/-- The grouped frame of line 62 / 73: per-department row counts
(`groupby("Department")["Company"].count()`; `Company` is non-null after
normalization, so the count is the row count). -/
def shareBase (cs : List ClientRow) : List (String × Nat) :=
  (deptsOf cs).map (fun d => (d, (cs.filter (fun r => r.department = d)).length))

/-- The shared logic of lines 62-63 / 73-74: the grouped counts with
`Share_% = round(100 * Total_Contracts / Total_Contracts.sum(), 1)`. -/
def shareTable (cs : List ClientRow) : List ShareRow :=
  (shareBase cs).map (fun p =>
    ⟨p.1, p.2, round1 (100 * (p.2 : ℚ) / (((shareBase cs).map (·.2)).sum : Nat))⟩)

/-- `dept_share` (lines 62-63): market share over all contracts. -/
def deptShare (cs : List ClientRow) : List ShareRow := shareTable cs

/-- `first_share` (lines 72-74): market share over first contracts only. -/
def firstShare (cs : List ClientRow) : List ShareRow :=
  shareTable (cs.filter (fun r => r.renewalNo = 0))

/-! ### Profit attribution (section 10, lines 119-127) -/

/-- Lexicographic order on `(Department, Company)` pairs, the key order of
`groupby(["Department", "Company"])`. -/
def pairLE (p q : String × String) : Prop :=
  strLT p.1 q.1 ∨ (p.1 = q.1 ∧ strLE p.2 q.2)

instance : DecidableRel pairLE := fun p q => by
  unfold pairLE; infer_instance

/-- `groupby(["Department", "Company"])["Renewal_No"].max()` for one group:
the maximum renewal number among this company's rows in this department. -/
def maxRenewalIn (cs : List ClientRow) (d c : String) : Nat :=
  ((cs.filter (fun r => r.department = d ∧ r.company = c)).map (·.renewalNo)).foldr max 0

/-- `client_contracts` (lines 119-120): one `(Department, Company,
Total_Contracts)` triple per distinct pair, keys sorted ascending,
with `Total_Contracts = max(Renewal_No) + 1`. -/
def clientContracts (cs : List ClientRow) : List (String × String × Nat) :=
  (List.insertionSort pairLE ((cs.map (fun r => (r.department, r.company))).dedup)).map
    (fun p => (p.1, p.2, maxRenewalIn cs p.1 p.2 + 1))

/-- `dept_totals` (line 122): `Dept_Total_Contracts` for one department,
the sum of `Total_Contracts` over that department's `client_contracts`. -/
def deptTotalContractsOf (cs : List ClientRow) (d : String) : Nat :=
  (((clientContracts cs).filter (fun t => t.1 = d)).map (fun t => t.2.2)).sum

/-- One row of `merged_clients_profit` after lines 121-125.  `year` and
`totalProfit` are `none` exactly on the NaN rows a left merge creates for a
department with no finance rows; `estimatedProfit` is `none` when the NaN
profit propagates through line 125. -/
structure MergedRow where
  department : String
  company : String
  totalContracts : Nat
  year : Option Int
  totalProfit : Option ℚ
  deptTotalContracts : Nat
  contractsSharePct : ℚ
  estimatedProfit : Option ℚ
deriving DecidableEq, Repr

/-- The block of merged rows produced for one `client_contracts` triple by
the department-only left merge of line 121, carrying the derived columns of
lines 122-125: one row per finance row of the department (right rows in
order), or a single all-NaN row when the department has none. -/
def mergedBlock (cs : List ClientRow) (fin : List FinanceRow)
    (t : String × String × Nat) : List MergedRow :=
  let dt := deptTotalContractsOf cs t.1
  let share := round1 (100 * (t.2.2 : ℚ) / (dt : ℚ))
  let gs := fin.filter (fun g => g.department = t.1)
  if gs.isEmpty then
    [⟨t.1, t.2.1, t.2.2, none, none, dt, share, none⟩]
  else
    gs.map (fun g =>
      ⟨t.1, t.2.1, t.2.2, some g.year, some g.totalProfit, dt, share,
        some (round2 (share / 100 * g.totalProfit))⟩)

/-- `merged_clients_profit` (lines 121-125): left merge on `Department`
preserves the left order and pairs each triple with every matching finance
row. -/
def mergedClientsProfit (cs : List ClientRow) (fin : List FinanceRow) :
    List MergedRow :=
  (clientContracts cs).flatMap (mergedBlock cs fin)

/-- Descending comparison on the `Estimated_Profit` column with NaN sorted
last (`na_position="last"`). -/
def estGE : Option ℚ → Option ℚ → Prop
  | some p, some q => q ≤ p
  | some _, none => True
  | none, none => True
  | none, some _ => False

instance : DecidableRel estGE := fun x y => by
  cases x <;> cases y <;> unfold estGE <;> infer_instance

/-- The sort key of line 126: `Department` ascending, then
`Estimated_Profit` descending (NaN last). -/
def rowLE (a b : MergedRow) : Prop :=
  strLT a.department b.department ∨
    (a.department = b.department ∧ estGE a.estimatedProfit b.estimatedProfit)

instance : DecidableRel rowLE := fun a b => by
  unfold rowLE; infer_instance

/-- `top_clients_per_dept` (line 126): a stable sort (pandas multi-key
`sort_values` uses the stable `lexsort`) by department ascending and
estimated profit descending. -/
def topClientsPerDept (cs : List ClientRow) (fin : List FinanceRow) :
    List MergedRow :=
  List.insertionSort rowLE (mergedClientsProfit cs fin)

/-- `groupby("Department").head(n)` on a frame in its current order: keep a
row when fewer than `n` rows of its department have been kept so far. -/
def headPerDept (n : Nat) : (String → Nat) → List MergedRow → List MergedRow
  | _, [] => []
  | cnt, r :: rs =>
    if cnt r.department < n then
      r :: headPerDept n (fun d => if d = r.department then cnt d + 1 else cnt d) rs
    else headPerDept n cnt rs

/-- `top_clients_15` (line 127). -/
def topClients15 (cs : List ClientRow) (fin : List FinanceRow) :
    List MergedRow :=
  headPerDept 15 (fun _ => 0) (topClientsPerDept cs fin)

/-! ### Finance normalization and the pipeline (lines 35-36 and script order) -/

/-- A raw finance row before `astype(int)`: the `Year` cell as loaded
(rendered as a string). -/
structure RawFinanceRow where
  department : String
  year : String
  totalSales : ℚ
  totalProfit : ℚ
deriving DecidableEq, Repr

/-- The numeric value of a decimal digit character, if it is one. -/
def charDigit? (c : Char) : Option Nat :=
  if '0' ≤ c ∧ c ≤ '9' then some (c.toNat - '0'.toNat) else none

/-- The value of a non-empty all-digit character sequence. -/
def digitsVal : List Char → Option Nat
  | [] => none
  | cs => cs.foldl
      (fun acc c => acc.bind (fun n => (charDigit? c).map (fun d => 10 * n + d)))
      (some 0)

/-- Python's `int(...)` cast of a cell, as `astype(int)` applies it: an
optional leading minus followed by digits succeeds; anything else raises
(whitespace trimming and a leading plus are left out of the model). -/
def pyIntCast (s : String) : Option Int :=
  match s.data with
  | '-' :: rest => (digitsVal rest).map (fun n => -(n : Int))
  | cs => (digitsVal cs).map (fun n => (n : Int))

/-- `astype(int)` on one `Year` cell: an uncastable value raises
(modelled as `Except.error` carrying the offending cell). -/
def castYear (r : RawFinanceRow) : Except String FinanceRow :=
  match pyIntCast r.year with
  | some y => .ok ⟨r.department, y, r.totalSales, r.totalProfit⟩
  | none => .error r.year

/-- Lines 35-36: `finance["Year"] = finance["Year"].astype(int)`, which
either casts every row or raises before anything downstream runs. -/
def normalizeFinance : List RawFinanceRow → Except String (List FinanceRow)
  | [] => .ok []
  | r :: rs =>
    match castYear r with
    | .error e => .error e
    | .ok g => (normalizeFinance rs).map (fun gs => g :: gs)

deriving instance DecidableEq for Except

/-- The derived tables the script computes after normalization. -/
structure PipelineOutput where
  renewalDist : List (Nat × Nat)
  deptShareT : List ShareRow
  firstShareT : List ShareRow
  churn : List ChurnRow
  profitMargins : List PVal
  topClients : List MergedRow
deriving DecidableEq, Repr

/-- The script, run top to bottom: the finance cast of line 36 happens
before any analyzer, so an uncastable year aborts with no analyzer
output at all. -/
def runPipeline (cs : List ClientRow) (rawFin : List RawFinanceRow) :
    Except String PipelineOutput :=
  (normalizeFinance rawFin).map (fun fin =>
    ⟨renewalCounts cs, deptShare cs, firstShare cs, churnTable cs,
      profitMarginCol fin, topClients15 cs fin⟩)

/-! ### The finance table as mutable state (line 112) -/

/-- The state of the `finance` dataframe: its normalized rows plus the
`Profit Margin_%` column, which does not exist until line 112 assigns it. -/
structure FinanceTable where
  rows : List FinanceRow
  profitMargins : Option (List PVal)
deriving DecidableEq, Repr

/-- Line 112 as a state transition: `finance["Profit Margin_%"] = ...`
writes the margin column into the finance table in place. -/
def financialPerformanceStep (t : FinanceTable) : FinanceTable :=
  { t with profitMargins := some (profitMarginCol t.rows) }

/-! ### General lemmas -/

/-- Rounding to one decimal moves a rational by at most `1/20`. -/
lemma round1_err (q : ℚ) : |round1 q - q| ≤ 1 / 20 := by
  have h := abs_sub_round (10 * q)
  rw [round1]
  have h10 : |round (10 * q) - 10 * q| ≤ 1 / 2 := by
    rwa [abs_sub_comm] at h
  calc |(round (10 * q) : ℚ) / 10 - q| = |(round (10 * q) - 10 * q) / 10| := by
        congr 1; ring
    _ = |round (10 * q) - 10 * q| / 10 := by
        rw [abs_div]; norm_num
    _ ≤ (1 / 2) / 10 := div_le_div_of_nonneg_right h10 (by norm_num)
    _ = 1 / 20 := by norm_num

/-- Summing a rounded column moves the total by at most `1/20` per row. -/
lemma sum_map_round1_err : ∀ l : List ℚ,
    |(l.map round1).sum - l.sum| ≤ (l.length : ℚ) / 20
  | [] => by simp
  | q :: l => by
    have ih := sum_map_round1_err l
    have h := round1_err q
    calc |((q :: l).map round1).sum - (q :: l).sum|
        = |(round1 q - q) + ((l.map round1).sum - l.sum)| := by
          simp only [List.map_cons, List.sum_cons]; ring_nf
      _ ≤ |round1 q - q| + |(l.map round1).sum - l.sum| := abs_add _ _
      _ ≤ 1 / 20 + (l.length : ℚ) / 20 := add_le_add h ih
      _ = ((q :: l).length : ℚ) / 20 := by
          simp only [List.length_cons]; push_cast; ring

/-- Grouping a list by a key partitions it: the per-key group sizes sum to
the list's length. -/
lemma sum_group_sizes {α β : Type} [DecidableEq α] [DecidableEq β]
    (l : List α) (key : α → β) :
    (((l.map key).dedup).map
      (fun k => (l.filter (fun a => key a = k)).length)).sum = l.length := by
  have hpt : ∀ k : β, (l.filter (fun a => key a = k)).length = (l.map key).count k := by
    intro k
    rw [List.count_eq_countP, ← List.countP_eq_length_filter, List.countP_map]
    apply List.countP_congr
    intro a _
    simp [Function.comp]
  calc (((l.map key).dedup).map
      (fun k => (l.filter (fun a => key a = k)).length)).sum
      = (((l.map key).dedup).map (fun k => (l.map key).count k)).sum := by
        congr 1
        exact List.map_congr_left (fun k _ => hpt k)
    _ = (l.map key).length := List.sum_map_count_dedup_eq_length _
    _ = l.length := List.length_map _ _

/-! ### C7: renewal distribution partitions the companies -/

/-- **C7.** The `RenewalDistribution` buckets, keyed by each company's
maximum observed `Renewal_No` and ordered ascending by `RenewalTimes`,
partition the companies exactly once: the bucket sizes sum to the number of
distinct companies, each bucket counts exactly the companies whose maximum
renewal equals its key, and the keys are sorted ascending. -/
theorem renewalCounts_partition (cs : List ClientRow) :
    ((renewalCounts cs).map (·.2)).sum = (distinctCompanies cs).length ∧
    (renewalCounts cs).Pairwise (fun p q => p.1 ≤ q.1) ∧
    ∀ p ∈ renewalCounts cs,
      p.2 = ((distinctCompanies cs).filter
        (fun c => maxRenewalOf cs c = p.1)).length := by
  refine ⟨?_, ?_, ?_⟩
  · have hperm : List.Perm (List.insertionSort (· ≤ ·) (renewalMaxima cs).dedup)
        ((renewalMaxima cs).dedup) := List.perm_insertionSort _ _
    have h1 : ((renewalCounts cs).map (·.2)).sum
        = (((renewalMaxima cs).dedup).map
            (fun k => ((renewalMaxima cs).filter (fun m => m = k)).length)).sum := by
      rw [renewalCounts, List.map_map]
      exact ((hperm.map _).sum_eq)
    rw [h1]
    calc (((renewalMaxima cs).dedup).map
          (fun k => ((renewalMaxima cs).filter (fun m => m = k)).length)).sum
        = (renewalMaxima cs).length := by
          simpa [List.map_id] using sum_group_sizes (renewalMaxima cs) id
      _ = (distinctCompanies cs).length := List.length_map _ _
  · rw [renewalCounts, List.pairwise_map]
    exact List.sorted_insertionSort (· ≤ ·) ((renewalMaxima cs).dedup)
  · intro p hp
    rw [renewalCounts] at hp
    obtain ⟨k, _, hk⟩ := List.mem_map.mp hp
    subst hk
    simp only
    rw [renewalMaxima, List.filter_map, List.length_map]
    rfl

/-! ### C9: the empty-cohort branch of churn is dead code -/

/-- **C9.** The empty-active-set branch of `ChurnRetention` is unreachable:
every year of the sorted distinct-year sequence has at least one active
company, so every churn row carries defined (non-null) churn and retention
values. -/
theorem churn_denominator_never_empty (cs : List ClientRow) :
    (∀ y ∈ sortedYears cs, companiesIn cs y ≠ []) ∧
    ∀ row ∈ churnTable cs, row.churnPct.isSome ∧ row.retentionPct.isSome := by
  have hyear : ∀ y ∈ sortedYears cs, companiesIn cs y ≠ [] := by
    intro y hy
    rw [sortedYears, List.mem_insertionSort, List.mem_dedup] at hy
    obtain ⟨r, hr, hry⟩ := List.mem_map.mp hy
    have hrf : r ∈ cs.filter (fun r => r.year = y) := by
      rw [List.mem_filter]
      exact ⟨hr, by simp [hry]⟩
    have hmem : r.company ∈ companiesIn cs y := by
      rw [companiesIn, List.mem_dedup]
      exact List.mem_map_of_mem _ hrf
    exact List.ne_nil_of_mem hmem
  refine ⟨hyear, ?_⟩
  intro row hrow
  rw [churnTable] at hrow
  obtain ⟨⟨y₁, y₂⟩, hp, hrow⟩ := List.mem_map.mp hrow
  have hy1 : y₁ ∈ sortedYears cs := (List.of_mem_zip hp).1
  have hpos : 0 < (companiesIn cs y₁).length :=
    List.length_pos.mpr (hyear y₁ hy1)
  subst hrow
  simp [churnRowFor, hpos]

/-- Evaluation of C9 at a concrete input. -/
theorem churn_denominator_never_empty_witness :
    companiesIn [⟨"A", "Sales", 0, 2020⟩] 2020 ≠ [] :=
  (churn_denominator_never_empty [⟨"A", "Sales", 0, 2020⟩]).1 2020 (by decide)

/-! ### C4: the churn table -/

/-- In `churnRowFor` the row's year is the earlier year, whatever branch. -/
lemma churnRowFor_year (cs : List ClientRow) (y y' : Int) :
    (churnRowFor cs y y').year = y := by
  simp only [churnRowFor]
  split <;> rfl

/-- Pairwise order on the first components transfers to a zip. -/
lemma pairwise_zip_left {α β : Type} {R : α → α → Prop} :
    ∀ {l₁ : List α} (l₂ : List β), l₁.Pairwise R →
      (l₁.zip l₂).Pairwise (fun p q => R p.1 q.1)
  | [], _, _ => by simp
  | _ :: _, [], _ => by simp
  | a :: l₁, b :: l₂, h => by
    rw [List.zip_cons_cons, List.pairwise_cons]
    refine ⟨fun p hp => ?_, pairwise_zip_left l₂ (List.pairwise_cons.mp h).2⟩
    exact (List.pairwise_cons.mp h).1 p.1 (List.of_mem_zip hp).1

/-- **C4.** `ChurnRetention` emits exactly `|Y|-1` rows ordered by the
earlier year; row `i` pairs year `Yᵢ` with `Yᵢ₊₁` and carries
`ChurnPercent = round(100·|activeᵢ \ activeᵢ₊₁|/|activeᵢ|, 1)` and
`RetentionPercent = 100 − ChurnPercent` when `activeᵢ` is non-empty, and
null values (never an error) otherwise. -/
theorem churnTable_spec (cs : List ClientRow) :
    (churnTable cs).length = (sortedYears cs).length - 1 ∧
    (churnTable cs).Pairwise (fun a b => a.year ≤ b.year) ∧
    ∀ i (h : i + 1 < (sortedYears cs).length) (h2 : i < (churnTable cs).length),
      ((churnTable cs).get ⟨i, h2⟩).year
          = (sortedYears cs).get ⟨i, Nat.lt_of_succ_lt h⟩ ∧
      ((churnTable cs).get ⟨i, h2⟩).churnPct
          = (if 0 < (companiesIn cs ((sortedYears cs).get ⟨i, Nat.lt_of_succ_lt h⟩)).length
            then some (round1 (100 *
              (((companiesIn cs ((sortedYears cs).get ⟨i, Nat.lt_of_succ_lt h⟩)).filter
                  (fun c => ¬ c ∈ companiesIn cs ((sortedYears cs).get ⟨i + 1, h⟩))).length : ℚ)
              / ((companiesIn cs ((sortedYears cs).get ⟨i, Nat.lt_of_succ_lt h⟩)).length : ℚ)))
            else none) ∧
      ((churnTable cs).get ⟨i, h2⟩).retentionPct
          = (if 0 < (companiesIn cs ((sortedYears cs).get ⟨i, Nat.lt_of_succ_lt h⟩)).length
            then some (100 - round1 (100 *
              (((companiesIn cs ((sortedYears cs).get ⟨i, Nat.lt_of_succ_lt h⟩)).filter
                  (fun c => ¬ c ∈ companiesIn cs ((sortedYears cs).get ⟨i + 1, h⟩))).length : ℚ)
              / ((companiesIn cs ((sortedYears cs).get ⟨i, Nat.lt_of_succ_lt h⟩)).length : ℚ)))
            else none) := by
  refine ⟨?_, ?_, ?_⟩
  · simp only [churnTable, List.length_map, List.length_zip, List.length_tail]
    omega
  · rw [churnTable, List.pairwise_map]
    have hys : (sortedYears cs).Pairwise (· ≤ ·) := by
      rw [sortedYears]
      exact List.sorted_insertionSort (· ≤ ·) ((cs.map (·.year)).dedup)
    have hz := pairwise_zip_left (sortedYears cs).tail hys
    exact hz.imp (by
      intro p q hpq
      rw [churnRowFor_year, churnRowFor_year]
      exact hpq)
  · intro i h h2
    have hgz : i < ((sortedYears cs).zip (sortedYears cs).tail).length := by
      simpa [churnTable] using h2
    have hget : (churnTable cs).get ⟨i, h2⟩
        = churnRowFor cs ((sortedYears cs).get ⟨i, Nat.lt_of_succ_lt h⟩)
            ((sortedYears cs).get ⟨i + 1, h⟩) := by
      simp only [churnTable, List.get_eq_getElem, List.getElem_map, List.getElem_zip,
        List.getElem_tail]
    rw [hget]
    simp only [churnRowFor]
    split <;> exact ⟨rfl, rfl, rfl⟩

/-- Evaluation of C4 at a concrete input. -/
theorem churnTable_spec_witness :
    (0 : Nat) + 1
        < (sortedYears [⟨"A", "Sales", 0, 2020⟩, ⟨"A", "Sales", 1, 2021⟩,
            ⟨"B", "Sales", 0, 2020⟩]).length ∧
    ((churnTable [⟨"A", "Sales", 0, 2020⟩, ⟨"A", "Sales", 1, 2021⟩,
        ⟨"B", "Sales", 0, 2020⟩]).get ⟨0, by decide⟩).year
      = (sortedYears [⟨"A", "Sales", 0, 2020⟩, ⟨"A", "Sales", 1, 2021⟩,
          ⟨"B", "Sales", 0, 2020⟩]).get ⟨0, by decide⟩ :=
  ⟨by decide,
    ((churnTable_spec [⟨"A", "Sales", 0, 2020⟩, ⟨"A", "Sales", 1, 2021⟩,
        ⟨"B", "Sales", 0, 2020⟩]).2.2 0 (by decide) (by decide)).1⟩

/-! ### C5: the analyzers are not mutation-free -/

/-- **C5 counterexample.** The claim says no table other than an analyzer's
own output is ever changed after normalization; but line 112 writes the
`Profit Margin_%` column into the normalized `finance` table in place, so
the FinancialPerformance step changes the finance table it reads. -/
theorem financeTable_mutated :
    financialPerformanceStep ⟨[⟨"Ops", 2020, 4, 1⟩], none⟩ ≠
      (⟨[⟨"Ops", 2020, 4, 1⟩], none⟩ : FinanceTable) := by
  intro h
  have h2 := congrArg FinanceTable.profitMargins h
  simp [financialPerformanceStep] at h2

/-- **C5 amended.** The FinancialPerformance step does mutate the finance
table (it adds the margin column in place, line 112), but the mutation is
benign: it preserves every pre-existing row of the table and rerunning the
step reproduces the same state (the analyzers stay deterministic functions
of the normalized inputs). -/
theorem financialPerformanceStep_frame (t : FinanceTable) :
    (financialPerformanceStep t).rows = t.rows ∧
    financialPerformanceStep (financialPerformanceStep t)
      = financialPerformanceStep t :=
  ⟨rfl, rfl⟩

/-! ### C1: the profit margin has no division-by-zero guard -/

/-- **C1 counterexample.** On a finance row with `TotalSales = 0` and
`TotalProfit = 5` line 112 computes `+inf` — a propagated, non-null float
value, not the guarded undefined/null metric the claim describes. -/
theorem profitMargin_zeroSales_notNull :
    profitMarginCell ⟨"Ops", 2020, 0, 5⟩ = PVal.posInf ∧
    PVal.posInf.isNull = false := by
  decide

/-- **C1 amended.** `ProfitMarginPercent = round(100·TotalProfit/TotalSales, 1)`
whenever `TotalSales ≠ 0`; when `TotalSales = 0` the unguarded division
yields `+inf`/`-inf` (NaN only when `TotalProfit = 0` too), and no error is
raised (the computation is total). -/
theorem profitMarginCell_spec (r : FinanceRow) :
    (r.totalSales ≠ 0 →
      profitMarginCell r = .fin (round1 (100 * r.totalProfit / r.totalSales))) ∧
    (r.totalSales = 0 → 0 < r.totalProfit → profitMarginCell r = .posInf) ∧
    (r.totalSales = 0 → r.totalProfit < 0 → profitMarginCell r = .negInf) ∧
    (r.totalSales = 0 → r.totalProfit = 0 → profitMarginCell r = .nan) := by
  refine ⟨fun h => ?_, fun h h2 => ?_, fun h h2 => ?_, fun h h2 => ?_⟩
  · have harg : r.totalProfit / r.totalSales * 100
        = 100 * r.totalProfit / r.totalSales := by ring
    simp [profitMarginCell, pdiv, pmul100, pround1, h, harg]
  · simp [profitMarginCell, pdiv, pmul100, pround1, h, h2]
  · simp [profitMarginCell, pdiv, pmul100, pround1, h, h2, asymm h2]
  · simp [profitMarginCell, pdiv, pmul100, pround1, h, h2]

/-- Evaluation of C1 at a concrete input. -/
theorem profitMarginCell_spec_witness :
    (1000 : ℚ) ≠ 0 ∧
    profitMarginCell ⟨"Ops", 2020, 1000, 250⟩
      = .fin (round1 (100 * 250 / 1000)) :=
  ⟨by norm_num,
    (profitMarginCell_spec ⟨"Ops", 2020, 1000, 250⟩).1 (by norm_num)⟩

/-! ### C6: market share -/

/-- Every share row carries the claimed formula over the view's total. -/
lemma shareTable_rows (cs : List ClientRow) :
    ∀ row ∈ shareTable cs,
      row.sharePct = round1 (100 * (row.totalContracts : ℚ)
        / ((((shareTable cs).map (·.totalContracts)).sum : ℕ) : ℚ)) := by
  intro row hrow
  have hmapeq : (shareTable cs).map (·.totalContracts) = (shareBase cs).map (·.2) := by
    rw [shareTable, List.map_map]
    rfl
  rw [shareTable] at hrow
  obtain ⟨p, _, hp⟩ := List.mem_map.mp hrow
  subst hp
  rw [hmapeq]

/-- The per-department counts of a view sum to the view's row count. -/
lemma shareBase_total (cs : List ClientRow) :
    ((shareBase cs).map (·.2)).sum = cs.length := by
  rw [shareBase, List.map_map]
  have hperm : List.Perm (List.insertionSort strLE ((cs.map (·.department)).dedup))
      ((cs.map (·.department)).dedup) := List.perm_insertionSort _ _
  calc ((List.insertionSort strLE ((cs.map (·.department)).dedup)).map
        ((fun p : String × Nat => p.2) ∘
          (fun d => (d, (cs.filter (fun r => r.department = d)).length)))).sum
      = (((cs.map (·.department)).dedup).map
          (fun d => (cs.filter (fun r => r.department = d)).length)).sum :=
        (hperm.map _).sum_eq
    _ = cs.length := sum_group_sizes cs (·.department)

/-- The rounded shares of a non-empty view sum to `100` up to `1/20` per
department row. -/
lemma shareTable_sum (cs : List ClientRow) (h : cs ≠ []) :
    |((shareTable cs).map (·.sharePct)).sum - 100|
      ≤ ((shareTable cs).length : ℚ) / 20 := by
  have htot := shareBase_total cs
  have ht0 : ((((shareBase cs).map (·.2)).sum : Nat) : ℚ) ≠ 0 := by
    rw [htot]
    exact_mod_cast Nat.pos_of_ne_zero (fun h0 => h (List.length_eq_zero.mp h0)) |>.ne'
  set T : ℚ := ((((shareBase cs).map (·.2)).sum : Nat) : ℚ) with hT
  have hshares : (shareTable cs).map (·.sharePct)
      = ((shareBase cs).map (fun p => 100 * (p.2 : ℚ) / T)).map round1 := by
    rw [shareTable, List.map_map, List.map_map]
    rfl
  have htrue : ((shareBase cs).map (fun p => 100 * (p.2 : ℚ) / T)).sum = 100 := by
    have hfun : ((shareBase cs).map (fun p => 100 * (p.2 : ℚ) / T))
        = (shareBase cs).map (fun p => (100 / T) * (p.2 : ℚ)) := by
      apply List.map_congr_left
      intro p _
      ring
    rw [hfun, List.sum_map_mul_left]
    have hcast : ((shareBase cs).map (fun p => ((p.2 : Nat) : ℚ))).sum = T := by
      rw [hT]
      rw [Nat.cast_list_sum ((shareBase cs).map (·.2)), List.map_map]
      rfl
    rw [hcast]
    exact div_mul_cancel₀ 100 ht0
  have hlen : ((shareBase cs).map (fun p => 100 * (p.2 : ℚ) / T)).length
      = (shareTable cs).length := by
    rw [shareTable, List.length_map, List.length_map]
  calc |((shareTable cs).map (·.sharePct)).sum - 100|
      = |(((shareBase cs).map (fun p => 100 * (p.2 : ℚ) / T)).map round1).sum
          - ((shareBase cs).map (fun p => 100 * (p.2 : ℚ) / T)).sum| := by
        rw [hshares, htrue]
    _ ≤ (((shareBase cs).map (fun p => 100 * (p.2 : ℚ) / T)).length : ℚ) / 20 :=
        sum_map_round1_err _
    _ = ((shareTable cs).length : ℚ) / 20 := by rw [hlen]

/-- **C6 counterexample.** With six departments of one contract each, every
share rounds `16.666…` up to `16.7`, so the shares sum to `100.2`: the
claimed universal `±0.1` tolerance fails. -/
theorem shareSum_tolerance_violated :
    ¬ |((deptShare [⟨"c1", "A", 0, 2020⟩, ⟨"c2", "B", 0, 2020⟩,
          ⟨"c3", "C", 0, 2020⟩, ⟨"c4", "D", 0, 2020⟩, ⟨"c5", "E", 0, 2020⟩,
          ⟨"c6", "F", 0, 2020⟩]).map (·.sharePct)).sum - 100| ≤ 1 / 10 := by
  have hsum : ((deptShare [⟨"c1", "A", 0, 2020⟩, ⟨"c2", "B", 0, 2020⟩,
      ⟨"c3", "C", 0, 2020⟩, ⟨"c4", "D", 0, 2020⟩, ⟨"c5", "E", 0, 2020⟩,
      ⟨"c6", "F", 0, 2020⟩]).map (·.sharePct)).sum = 501 / 5 := by
    simp +decide [deptShare, shareTable, shareBase, deptsOf]
    norm_num [round1, round_eq]
  rw [hsum]
  have habs : |(501 : ℚ) / 5 - 100| = 1 / 5 := by
    rw [show (501 : ℚ) / 5 - 100 = 1 / 5 by norm_num]
    exact abs_of_pos (by norm_num)
  rw [habs]
  norm_num

/-- **C6 amended.** In each MarketShare view,
`SharePercent = round(100·TotalContracts/Σ TotalContracts, 1)`; for a
non-empty view the shares sum to `100` within `0.05` per department (the
claimed uniform `±0.1` only covers views of at most two departments). -/
theorem marketShare_spec (cs : List ClientRow) :
    (∀ row ∈ deptShare cs,
      row.sharePct = round1 (100 * (row.totalContracts : ℚ)
        / ((((deptShare cs).map (·.totalContracts)).sum : ℕ) : ℚ))) ∧
    (cs ≠ [] →
      |((deptShare cs).map (·.sharePct)).sum - 100|
        ≤ ((deptShare cs).length : ℚ) / 20) ∧
    (∀ row ∈ firstShare cs,
      row.sharePct = round1 (100 * (row.totalContracts : ℚ)
        / ((((firstShare cs).map (·.totalContracts)).sum : ℕ) : ℚ))) ∧
    (cs.filter (fun r => r.renewalNo = 0) ≠ [] →
      |((firstShare cs).map (·.sharePct)).sum - 100|
        ≤ ((firstShare cs).length : ℚ) / 20) :=
  ⟨shareTable_rows cs, shareTable_sum cs,
    shareTable_rows (cs.filter (fun r => r.renewalNo = 0)),
    shareTable_sum (cs.filter (fun r => r.renewalNo = 0))⟩

/-- Evaluation of C6 at a concrete input. -/
theorem marketShare_spec_witness :
    ([⟨"A", "Sales", 0, 2020⟩] : List ClientRow) ≠ [] ∧
    |((deptShare [⟨"A", "Sales", 0, 2020⟩]).map (·.sharePct)).sum - 100|
      ≤ ((deptShare [⟨"A", "Sales", 0, 2020⟩]).length : ℚ) / 20 :=
  ⟨by decide, (marketShare_spec [⟨"A", "Sales", 0, 2020⟩]).2.1 (by decide)⟩

/-! ### C8: a bad finance year is fatal before any analyzer runs -/

/-- A row whose year does not cast makes the whole cast raise. -/
lemma normalizeFinance_error :
    ∀ raw : List RawFinanceRow, (∃ r ∈ raw, pyIntCast r.year = none) →
      ∃ e, normalizeFinance raw = .error e
  | [], h => absurd h (by simp)
  | r :: rs, h => by
    rw [normalizeFinance]
    cases hr : pyIntCast r.year with
    | none =>
      refine ⟨r.year, ?_⟩
      rw [castYear, hr]
    | some y =>
      obtain ⟨r', hr', hnone⟩ := h
      rcases List.mem_cons.mp hr' with rfl | hmem
      · exact absurd hnone (by rw [hr]; simp)
      · obtain ⟨e, he⟩ := normalizeFinance_error rs ⟨r', hmem, hnone⟩
        refine ⟨e, ?_⟩
        rw [castYear, hr]
        simp only
        rw [he]
        rfl

/-- When every year casts, the whole column casts, rowwise. -/
lemma normalizeFinance_ok :
    ∀ raw : List RawFinanceRow, (∀ r ∈ raw, (pyIntCast r.year).isSome) →
      ∃ fin, normalizeFinance raw = .ok fin ∧
        List.Forall₂ (fun (r : RawFinanceRow) (g : FinanceRow) =>
          pyIntCast r.year = some g.year ∧ g.department = r.department ∧
          g.totalSales = r.totalSales ∧ g.totalProfit = r.totalProfit) raw fin
  | [], _ => ⟨[], rfl, List.Forall₂.nil⟩
  | r :: rs, h => by
    obtain ⟨y, hy⟩ := Option.isSome_iff_exists.mp (h r (List.mem_cons_self r rs))
    obtain ⟨fin, hfin, hall⟩ := normalizeFinance_ok rs
      (fun r' hr' => h r' (List.mem_cons_of_mem r hr'))
    refine ⟨⟨r.department, y, r.totalSales, r.totalProfit⟩ :: fin, ?_, ?_⟩
    · rw [normalizeFinance, castYear, hy]
      simp only
      rw [hfin]
      rfl
    · exact List.Forall₂.cons ⟨hy, rfl, rfl, rfl⟩ hall

/-- **C8.** If some finance `Year` cell cannot be cast to an integer, the
pipeline aborts with an error before any analyzer output exists; otherwise
the cast succeeds rowwise and the pipeline returns the full set of derived
tables. -/
theorem pipeline_fatal_on_bad_year (cs : List ClientRow)
    (raw : List RawFinanceRow) :
    ((∃ r ∈ raw, pyIntCast r.year = none) →
      ∃ e, runPipeline cs raw = .error e) ∧
    ((∀ r ∈ raw, (pyIntCast r.year).isSome) →
      ∃ fin, normalizeFinance raw = .ok fin ∧
        runPipeline cs raw = .ok
          ⟨renewalCounts cs, deptShare cs, firstShare cs, churnTable cs,
            profitMarginCol fin, topClients15 cs fin⟩ ∧
        List.Forall₂ (fun (r : RawFinanceRow) (g : FinanceRow) =>
          pyIntCast r.year = some g.year ∧ g.department = r.department ∧
          g.totalSales = r.totalSales ∧ g.totalProfit = r.totalProfit) raw fin) := by
  constructor
  · intro h
    obtain ⟨e, he⟩ := normalizeFinance_error raw h
    refine ⟨e, ?_⟩
    rw [runPipeline, he]
    rfl
  · intro h
    obtain ⟨fin, hfin, hall⟩ := normalizeFinance_ok raw h
    refine ⟨fin, hfin, ?_, hall⟩
    rw [runPipeline, hfin]
    rfl

/-- Evaluation of C8 at a concrete input. -/
theorem pipeline_fatal_on_bad_year_witness :
    ∃ e, runPipeline [] [⟨"D", "20x0", 1, 1⟩] = .error e :=
  (pipeline_fatal_on_bad_year [] [⟨"D", "20x0", 1, 1⟩]).1
    ⟨⟨"D", "20x0", 1, 1⟩, List.mem_singleton.mpr rfl, by decide⟩

/-! ### Order facts for the profit-attribution sort -/

lemma strLT_trans {a b c : String} (h1 : strLT a b) (h2 : strLT b c) :
    strLT a c :=
  trans_of (List.Lex (· < ·)) h1 h2

lemma strLT_irrefl (s : String) : ¬ strLT s s :=
  irrefl_of (List.Lex (· < ·)) s.data

lemma strLT_trichotomy (s t : String) : strLT s t ∨ s = t ∨ strLT t s := by
  have ht : IsTrichotomous (List Char) (List.Lex (· < ·)) := inferInstance
  rcases ht.trichotomous s.data t.data with h | h | h
  · exact Or.inl h
  · refine Or.inr (Or.inl ?_)
    cases s
    cases t
    exact congrArg String.mk (by simpa using h)
  · exact Or.inr (Or.inr h)

lemma estGE_refl (x : Option ℚ) : estGE x x := by
  cases x <;> simp [estGE]

lemma estGE_total (x y : Option ℚ) : estGE x y ∨ estGE y x := by
  cases x <;> cases y <;> simp [estGE]
  exact le_total _ _

lemma estGE_trans {x y z : Option ℚ} (h1 : estGE x y) (h2 : estGE y z) :
    estGE x z := by
  cases x <;> cases y <;> cases z <;> simp [estGE] at *
  exact le_trans h2 h1

instance : IsTotal MergedRow rowLE := ⟨fun a b => by
  rcases strLT_trichotomy a.department b.department with h | h | h
  · exact Or.inl (Or.inl h)
  · rcases estGE_total a.estimatedProfit b.estimatedProfit with h2 | h2
    · exact Or.inl (Or.inr ⟨h, h2⟩)
    · exact Or.inr (Or.inr ⟨h.symm, h2⟩)
  · exact Or.inr (Or.inl h)⟩

instance : IsTrans MergedRow rowLE := ⟨fun a b c hab hbc => by
  rcases hab with h1 | ⟨h1, e1⟩
  · rcases hbc with h2 | ⟨h2, e2⟩
    · exact Or.inl (strLT_trans h1 h2)
    · exact Or.inl (h2 ▸ h1)
  · rcases hbc with h2 | ⟨h2, e2⟩
    · exact Or.inl (h1 ▸ h2)
    · exact Or.inr ⟨h1.trans h2, estGE_trans e1 e2⟩⟩

/-! ### The department-only left join (C2, C10) -/

/-- A `client_contracts` triple's count is the maximum renewal number of
that company within that department, plus one. -/
lemma clientContracts_mem {cs : List ClientRow} {d c : String} {n : Nat}
    (h : (d, c, n) ∈ clientContracts cs) : n = maxRenewalIn cs d c + 1 := by
  rw [clientContracts] at h
  obtain ⟨p, _, hp⟩ := List.mem_map.mp h
  simp only [Prod.ext_iff] at hp
  obtain ⟨h1, h2, h3⟩ := hp
  subst h1
  subst h2
  exact h3.symm

/-- The `(Department, Company)` keys of `client_contracts` are distinct. -/
lemma clientContracts_keys_nodup (cs : List ClientRow) :
    ((clientContracts cs).map (fun t => (t.1, t.2.1))).Nodup := by
  rw [clientContracts, List.map_map]
  have hcomp : ((fun t : String × String × Nat => (t.1, t.2.1)) ∘
      (fun p : String × String => (p.1, p.2, maxRenewalIn cs p.1 p.2 + 1)))
      = id := rfl
  rw [hcomp, List.map_id]
  exact ((List.perm_insertionSort pairLE _).nodup_iff).mpr
    (List.nodup_dedup _)

/-- Every row of a merged block carries the block's keys. -/
lemma mergedBlock_fields (cs : List ClientRow) (fin : List FinanceRow)
    (t : String × String × Nat) :
    ∀ x ∈ mergedBlock cs fin t, x.department = t.1 ∧ x.company = t.2.1 := by
  intro x hx
  rw [mergedBlock] at hx
  split at hx
  · rw [List.mem_singleton] at hx
    subst hx
    exact ⟨rfl, rfl⟩
  · obtain ⟨g, _, hg⟩ := List.mem_map.mp hx
    subst hg
    exact ⟨rfl, rfl⟩

lemma filter_flatMap {α β : Type} (l : List α) (f : α → List β) (p : β → Bool) :
    (l.flatMap f).filter p = l.flatMap (fun a => (f a).filter p) := by
  induction l with
  | nil => rfl
  | cons a l ih => simp [List.flatMap_cons, List.filter_append, ih]

/-- A block keeps all its rows under the key filter of its own key and
none under another key's filter. -/
lemma mergedBlock_filter (cs : List ClientRow) (fin : List FinanceRow)
    (d c : String) (t : String × String × Nat) :
    (mergedBlock cs fin t).filter (fun r => r.department = d ∧ r.company = c)
      = if (t.1, t.2.1) = (d, c) then mergedBlock cs fin t else [] := by
  split
  case isTrue hkey =>
    simp only [Prod.ext_iff] at hkey
    apply List.filter_eq_self.mpr
    intro x hx
    obtain ⟨h1, h2⟩ := mergedBlock_fields cs fin t x hx
    simp [h1, h2, hkey.1, hkey.2]
  case isFalse hkey =>
    apply List.filter_eq_nil_iff.mpr
    intro x hx
    obtain ⟨h1, h2⟩ := mergedBlock_fields cs fin t x hx
    simp only [decide_eq_true_eq, not_and]
    intro hxd hxc
    exact hkey (by rw [← h1, ← h2, hxd, hxc])

/-- A `flatMap` of blocks that all filter to nothing filters to nothing. -/
lemma flatMap_filter_nil {α β : Type} (f : α → List β) (p : β → Bool) :
    ∀ M : List α, (∀ t ∈ M, (f t).filter p = []) →
      (M.flatMap f).filter p = []
  | [], _ => rfl
  | u :: M, h => by
    rw [List.flatMap_cons, List.filter_append, h u (List.mem_cons_self u M),
      List.nil_append]
    exact flatMap_filter_nil f p M (fun v hv => h v (List.mem_cons_of_mem u hv))

/-- Filtering a `flatMap` by a key that occurs exactly once keeps exactly
that key's block. -/
lemma flatMap_filter_unique {α β κ : Type} [DecidableEq κ]
    (f : α → List β) (p : β → Bool) (key : α → κ) (k : κ) :
    ∀ (L : List α) (a : α), a ∈ L → (L.map key).Nodup → key a = k →
      (∀ t ∈ L, (f t).filter p = if key t = k then f t else []) →
      (L.flatMap f).filter p = f a
  | [], a, ha, _, _, _ => absurd ha (List.not_mem_nil a)
  | t :: L, a, ha, hnd, hk, hblocks => by
    rw [List.flatMap_cons, List.filter_append]
    rw [List.map_cons, List.nodup_cons] at hnd
    rcases List.mem_cons.mp ha with rfl | hmem
    · rw [hblocks a (List.mem_cons_self a L), if_pos hk]
      have hrest : (L.flatMap f).filter p = [] := by
        apply flatMap_filter_nil
        intro u hu
        rw [hblocks u (List.mem_cons_of_mem a hu), if_neg]
        intro hke
        have hm : key u ∈ L.map key := List.mem_map_of_mem key hu
        rw [hke, ← hk] at hm
        exact hnd.1 hm
      rw [hrest, List.append_nil]
    · have htk : key t ≠ k := by
        intro hke
        have hm : key a ∈ L.map key := List.mem_map_of_mem key hmem
        rw [hk, ← hke] at hm
        exact hnd.1 hm
      rw [hblocks t (List.mem_cons_self t L), if_neg htk, List.nil_append]
      exact flatMap_filter_unique f p key k L a hmem hnd.2 hk
        (fun u hu => hblocks u (List.mem_cons_of_mem t hu))

/-- The key filter of the merged table keeps exactly the matching triple's
block. -/
lemma merged_filter (cs : List ClientRow) (fin : List FinanceRow)
    (d c : String) (n : Nat) (h : (d, c, n) ∈ clientContracts cs) :
    (mergedClientsProfit cs fin).filter
        (fun r => r.department = d ∧ r.company = c)
      = mergedBlock cs fin (d, c, n) := by
  rw [mergedClientsProfit]
  exact flatMap_filter_unique (mergedBlock cs fin) _ (fun t => (t.1, t.2.1))
    (d, c) (clientContracts cs) (d, c, n) h (clientContracts_keys_nodup cs) rfl
    (fun t _ => mergedBlock_filter cs fin d c t)

/-- **C2 counterexample.** `client_contracts` groups by the
`(Department, Company)` pair, so a company active in two departments gets a
per-pair maximum, not the claimed per-company maximum: with rows
`(C, D1, Renewal_No 2)` and `(C, D2, Renewal_No 5)` the `(D1, C)` triple
carries `TotalContracts = 3`, while the claimed
`(max observed Renewal_No for C) + 1 = 6`. -/
theorem clientContracts_crossDept_max :
    ("D1", "C", 3) ∈ clientContracts [⟨"C", "D1", 2, 2020⟩, ⟨"C", "D2", 5, 2020⟩] ∧
    maxRenewalOf [⟨"C", "D1", 2, 2020⟩, ⟨"C", "D2", 5, 2020⟩] "C" + 1 = 6 ∧
    (3 : Nat) ≠ 6 := by
  decide

/-- **C2 amended.** Each `(Department, Company)` pair carries
`TotalContracts = (max Renewal_No of that company within that department) + 1`
and is joined against every finance row of its department regardless of
`Year`: the merged rows for the pair are exactly one row per finance row of
the department, with `ContractSharePercent = round(100·TotalContracts/
DeptTotalContracts, 1)` and `EstimatedProfit = round(ContractSharePercent/
100 · TotalProfit, 2)`. -/
theorem mergedClientsProfit_join_spec (cs : List ClientRow)
    (fin : List FinanceRow) (d c : String) (n : Nat)
    (h : (d, c, n) ∈ clientContracts cs)
    (hne : fin.filter (fun g => g.department = d) ≠ []) :
    n = maxRenewalIn cs d c + 1 ∧
    (mergedClientsProfit cs fin).filter
        (fun r => r.department = d ∧ r.company = c)
      = (fin.filter (fun g => g.department = d)).map (fun g =>
          ⟨d, c, n, some g.year, some g.totalProfit, deptTotalContractsOf cs d,
            round1 (100 * (n : ℚ) / (deptTotalContractsOf cs d : ℚ)),
            some (round2 (round1 (100 * (n : ℚ)
              / (deptTotalContractsOf cs d : ℚ)) / 100 * g.totalProfit))⟩) := by
  refine ⟨clientContracts_mem h, ?_⟩
  rw [merged_filter cs fin d c n h, mergedBlock]
  simp only
  rw [if_neg (by simpa [List.isEmpty_iff] using hne)]

/-- Evaluation of C2 at a concrete input. -/
theorem mergedClientsProfit_join_spec_witness :
    ("S", "A", 2) ∈ clientContracts [⟨"A", "S", 1, 2020⟩] ∧
    ([⟨"S", 2020, 1000, 300⟩] : List FinanceRow).filter
        (fun g => g.department = "S") ≠ [] ∧
    2 = maxRenewalIn [⟨"A", "S", 1, 2020⟩] "S" "A" + 1 :=
  ⟨by decide, by decide,
    (mergedClientsProfit_join_spec [⟨"A", "S", 1, 2020⟩]
      [⟨"S", 2020, 1000, 300⟩] "S" "A" 2 (by decide) (by decide)).1⟩

/-- **C10.** The merge of line 121 is a left join: a `(Department, Company)`
pair whose department has no finance row still yields exactly one merged
row, with null year, null `TotalProfit`, and hence null `EstimatedProfit`,
instead of being dropped. -/
theorem merged_left_join_null_row (cs : List ClientRow)
    (fin : List FinanceRow) (d c : String) (n : Nat)
    (h : (d, c, n) ∈ clientContracts cs)
    (hempty : fin.filter (fun g => g.department = d) = []) :
    (mergedClientsProfit cs fin).filter
        (fun r => r.department = d ∧ r.company = c)
      = [⟨d, c, n, none, none, deptTotalContractsOf cs d,
          round1 (100 * (n : ℚ) / (deptTotalContractsOf cs d : ℚ)), none⟩] := by
  rw [merged_filter cs fin d c n h, mergedBlock]
  simp only
  rw [if_pos (by simp [List.isEmpty_iff, hempty])]

/-- Evaluation of C10 at a concrete input. -/
theorem merged_left_join_null_row_witness :
    ("S", "A", 2) ∈ clientContracts [⟨"A", "S", 1, 2020⟩] ∧
    (([] : List FinanceRow).filter (fun g => g.department = "S") = []) ∧
    (mergedClientsProfit [⟨"A", "S", 1, 2020⟩] []).filter
        (fun r => r.department = "S" ∧ r.company = "A")
      = [⟨"S", "A", 2, none, none,
          deptTotalContractsOf [⟨"A", "S", 1, 2020⟩] "S",
          round1 (100 * ((2 : ℕ) : ℚ)
            / (deptTotalContractsOf [⟨"A", "S", 1, 2020⟩] "S" : ℚ)), none⟩] :=
  ⟨by decide, rfl,
    merged_left_join_null_row [⟨"A", "S", 1, 2020⟩] [] "S" "A" 2
      (by decide) rfl⟩

/-! ### C3: the top-15 ranking per department -/

lemma headPerDept_sublist (n : Nat) :
    ∀ (cnt : String → Nat) (l : List MergedRow),
      List.Sublist (headPerDept n cnt l) l
  | _, [] => List.Sublist.refl _
  | cnt, r :: rs => by
    rw [headPerDept]
    split
    · exact (headPerDept_sublist n _ rs).cons₂ r
    · exact (headPerDept_sublist n cnt rs).cons r

lemma headPerDept_filter (n : Nat) (d : String) :
    ∀ (l : List MergedRow) (cnt : String → Nat),
      (headPerDept n cnt l).filter (fun r => r.department = d)
        = (l.filter (fun r => r.department = d)).take (n - cnt d)
  | [], cnt => by simp [headPerDept]
  | r :: rs, cnt => by
    rw [headPerDept]
    by_cases hd : r.department = d
    · by_cases hc : cnt r.department < n
      · have hc' : cnt d < n := by rwa [hd] at hc
        rw [if_pos hc, List.filter_cons_of_pos (by simp [hd]),
          List.filter_cons_of_pos (by simp [hd]),
          headPerDept_filter n d rs _]
        have hcnt : (if d = r.department then cnt d + 1 else cnt d)
            = cnt d + 1 := by simp [hd]
        rw [hcnt, show n - cnt d = (n - (cnt d + 1)) + 1 from by omega,
          List.take_succ_cons]
      · have hc' : ¬ cnt d < n := by rwa [hd] at hc
        have h0 : n - cnt d = 0 := by omega
        rw [if_neg hc, List.filter_cons_of_pos (by simp [hd]),
          headPerDept_filter n d rs cnt, h0, List.take_zero, List.take_zero]
    · by_cases hc : cnt r.department < n
      · rw [if_pos hc, List.filter_cons_of_neg (by simp [hd]),
          List.filter_cons_of_neg (by simp [hd]),
          headPerDept_filter n d rs _]
        have hcnt : (if d = r.department then cnt d + 1 else cnt d)
            = cnt d := if_neg (fun h => hd h.symm)
        rw [hcnt]
      · rw [if_neg hc, List.filter_cons_of_neg (by simp [hd]),
          headPerDept_filter n d rs cnt]

/-- **C3.** Within each department, the `ProfitAttribution` output holds at
most 15 rows, is ordered by descending estimated profit (NaN rows last),
and breaks ties by stable input order: the rows of any department/profit
class appear as a sublist (in order) of the merged table's rows of that
class. -/
theorem topClients15_spec (cs : List ClientRow) (fin : List FinanceRow)
    (d : String) :
    ((topClients15 cs fin).filter (fun r => r.department = d)).length ≤ 15 ∧
    ((topClients15 cs fin).filter (fun r => r.department = d)).Pairwise
      (fun a b => estGE a.estimatedProfit b.estimatedProfit) ∧
    ∀ q : Option ℚ,
      List.Sublist
        ((topClients15 cs fin).filter
          (fun r => r.department = d ∧ r.estimatedProfit = q))
        ((mergedClientsProfit cs fin).filter
          (fun r => r.department = d ∧ r.estimatedProfit = q)) := by
  have hsorted : (topClientsPerDept cs fin).Pairwise rowLE := by
    rw [topClientsPerDept]
    exact List.sorted_insertionSort rowLE (mergedClientsProfit cs fin)
  have hsub : List.Sublist (topClients15 cs fin) (topClientsPerDept cs fin) := by
    rw [topClients15]
    exact headPerDept_sublist 15 _ _
  refine ⟨?_, ?_, ?_⟩
  · rw [topClients15, headPerDept_filter]
    simp
  · have hps : ((topClients15 cs fin).filter
        (fun r => r.department = d)).Pairwise rowLE :=
      hsorted.sublist ((List.filter_sublist _).trans hsub)
    refine hps.imp_of_mem ?_
    intro a b ha hb hab
    have hda : a.department = d := by
      simpa using (List.mem_filter.mp ha).2
    have hdb : b.department = d := by
      simpa using (List.mem_filter.mp hb).2
    rcases hab with h | ⟨_, h⟩
    · rw [hda, hdb] at h
      exact absurd h (strLT_irrefl d)
    · exact h
  · intro q
    have h1 : List.Sublist
        ((topClients15 cs fin).filter
          (fun r => r.department = d ∧ r.estimatedProfit = q))
        ((topClientsPerDept cs fin).filter
          (fun r => r.department = d ∧ r.estimatedProfit = q)) :=
      hsub.filter _
    have hclass : ((mergedClientsProfit cs fin).filter
        (fun r => r.department = d ∧ r.estimatedProfit = q)).Pairwise rowLE := by
      apply List.pairwise_of_forall_mem_list
      intro a ha b hb
      have hda := (List.mem_filter.mp ha).2
      have hdb := (List.mem_filter.mp hb).2
      simp only [decide_eq_true_eq] at hda hdb
      refine Or.inr ⟨hda.1.trans hdb.1.symm, ?_⟩
      rw [hda.2, hdb.2]
      exact estGE_refl q
    have h2 : List.Sublist
        ((mergedClientsProfit cs fin).filter
          (fun r => r.department = d ∧ r.estimatedProfit = q))
        (topClientsPerDept cs fin) := by
      rw [topClientsPerDept]
      exact List.sublist_insertionSort hclass (List.filter_sublist _)
    have h3 : List.Sublist
        ((mergedClientsProfit cs fin).filter
          (fun r => r.department = d ∧ r.estimatedProfit = q))
        ((topClientsPerDept cs fin).filter
          (fun r => r.department = d ∧ r.estimatedProfit = q)) := by
      have h4 := h2.filter
        (fun r => decide (r.department = d ∧ r.estimatedProfit = q))
      rwa [List.filter_eq_self.mpr (fun a ha => (List.mem_filter.mp ha).2)] at h4
    have h5 : ((topClientsPerDept cs fin).filter
          (fun r => r.department = d ∧ r.estimatedProfit = q))
        = ((mergedClientsProfit cs fin).filter
          (fun r => r.department = d ∧ r.estimatedProfit = q)) := by
      have hperm := (List.perm_insertionSort rowLE (mergedClientsProfit cs fin)).filter
        (fun r => decide (r.department = d ∧ r.estimatedProfit = q))
      exact (h3.eq_of_length hperm.length_eq.symm).symm
    rw [← h5]
    exact h1

end Dashboard
